import Mathlib

/-!
# Verification of the btree-based index access method core

A shallow embedding of `src/mongo/db/index/btree_based_access_method.cpp`
(the index-maintenance and bulk-build engine): key comparison, the
`setDifference` delta algorithm, `insert` with rollback, `remove`,
`validateUpdate`/`update` with the `UpdateTicket`, `findSingle`, the
key-too-long tolerance policy, the bulk builder's accumulate phase and
`commitBulk` construction loop, and the multikey flag.

External collaborators (the sorted data store, key extraction, the
transaction context) are modelled abstractly: store-level outcomes of
`SortedDataInterface::insert` / `SortedDataBuilderInterface::addKey` are
supplied as oracle functions `Key → Status`, the physical store content as a
list of `(key, recordId)` pairs, and `getKeys` output as an explicit key
list argument.
-/

namespace BtreeAccess



/-- An index key: models a single-field BSON object. `name` models the field
name (ignored by comparisons that pass `considerFieldName = false`), `val`
the field's value under the canonical BSON value order. -/
structure Key where
  name : Nat
  val : Int
  deriving DecidableEq, Repr

/-- `BSONObj::woCompare(r, ordering = {}, considerFieldName)` for single-field
objects of one canonical type: compares the field name first (when
`considerFieldName` is true), then the value; returns a negative, zero or
positive result. -/
def woCompare (l r : Key) (considerFieldName : Bool) : Int :=
  if considerFieldName then
    if l.name < r.name then -1
    else if r.name < l.name then 1
    else if l.val < r.val then -1
    else if r.val < l.val then 1
    else 0
  else
    if l.val < r.val then -1
    else if r.val < l.val then 1
    else 0

/-- Strict order induced by the field-name-sensitive comparison (the order of
a `BSONObjSet` built with the default comparator, as produced by `getKeys`). -/
def kLT (a b : Key) : Prop := woCompare a b true < 0

instance : DecidableRel kLT := fun a b => by unfold kLT; infer_instance

/-- Error codes used by this core (`mongo/base/error_codes.h` subset), plus a
marker for a fired `invariant()` (which aborts the process in the source). -/
inductive ErrorCode where
  | KeyTooLong
  | DuplicateKeyValue
  | DuplicateKey
  | InternalError
  | InvariantViolation
  | Other
  deriving DecidableEq, Repr

/-- `mongo::Status`: OK or an error code. -/
inductive Status where
  | ok
  | err (c : ErrorCode)
  deriving DecidableEq, Repr

/-- The physical content of the sorted data store, as entries. RecordIds are
modelled as naturals. -/
abbrev Store := List (Key × Nat)

/-- State shared by the access-method operations: the store entries and the
per-index persistent multikey flag (`IndexCatalogEntry`). -/
structure MState where
  store : Store
  multikey : Bool
  deriving DecidableEq, Repr

/-- `SortedDataInterface::unindex`: removes the entry for `(key, loc)`. -/
def unindex (store : Store) (key : Key) (loc : Nat) : Store :=
  store.filter (fun p => decide (¬(p.1 = key ∧ p.2 = loc)))

/-- `BtreeBasedAccessMethod::removeOneKey`: calls `unindex`, catching and
logging store-level assertion failures (best-effort removal; the model's
`unindex` is total, so the catch has no visible effect). -/
def removeOneKey (store : Store) (key : Key) (loc : Nat) (_dupsAllowed : Bool) : Store :=
  unindex store key loc

/-- `BtreeBasedAccessMethod::ignoreKeyTooLong`: ignore a `KeyTooLong` error if
we are on a secondary (not primary for this namespace) or if the
`failIndexKeyTooLong` server parameter was turned off by the user. -/
def ignoreKeyTooLong (isPrimary : Bool) (failIndexKeyTooLong : Bool) : Bool :=
  !isPrimary || !failIndexKeyTooLong

/-- The key-by-key loop of `BtreeBasedAccessMethod::insert`. `storeIns` is the
outcome of `_newInterface->insert` for each key; `prev` is the list of keys
already visited in this call (the iterators `keys.begin() .. i`); on a fatal
error the rollback loop unindexes every previously visited key, zeroes the
count, and returns the failure. -/
def insertKeys (storeIns : Key → Status) (ignoreKTL isReady dupsAllowed : Bool) (loc : Nat) :
    List Key → List Key → Nat → Store → Status × Nat × Store
  | [], _, count, store => (Status.ok, count, store)
  | k :: rest, prev, count, store =>
    match storeIns k with
    | Status.ok =>
        insertKeys storeIns ignoreKTL isReady dupsAllowed loc rest
          (prev ++ [k]) (count + 1) (store ++ [(k, loc)])
    | Status.err c =>
        if c = ErrorCode.KeyTooLong ∧ ignoreKTL = true then
          insertKeys storeIns ignoreKTL isReady dupsAllowed loc rest (prev ++ [k]) count store
        else if c = ErrorCode.DuplicateKeyValue ∧ isReady = false then
          insertKeys storeIns ignoreKTL isReady dupsAllowed loc rest (prev ++ [k]) count store
        else
          (Status.err c, 0,
           prev.foldl (fun st j => removeOneKey st j loc dupsAllowed) store)

/-- Result of `BtreeBasedAccessMethod::insert`. -/
structure InsertResult where
  status : Status
  numInserted : Nat
  state : MState
  deriving Repr

/-- `BtreeBasedAccessMethod::insert`: runs the key loop, then sets the
multikey flag when more than one key was inserted (only reached on the OK
path — on error the function returned early from inside the loop). -/
def insert (storeIns : Key → Status) (isPrimary failFlag isReady dupsAllowed : Bool)
    (keys : List Key) (loc : Nat) (s : MState) : InsertResult :=
  match insertKeys storeIns (ignoreKeyTooLong isPrimary failFlag) isReady dupsAllowed
      loc keys [] 0 s.store with
  | (Status.ok, n, store') =>
      ⟨Status.ok, n, ⟨store', s.multikey || decide (n > 1)⟩⟩
  | (Status.err c, n, store') =>
      ⟨Status.err c, n, ⟨store', s.multikey⟩⟩

/-- `BtreeBasedAccessMethod::remove`: unindex every key (best-effort), count
each one. -/
def remove (keys : List Key) (loc : Nat) (dupsAllowed : Bool) (s : MState) :
    Status × Nat × MState :=
  (Status.ok, keys.length,
   { s with store := keys.foldl (fun st j => removeOneKey st j loc dupsAllowed) s.store })

/-- The cursor-advance loop inside `setDifference`:
`while (j != r.end() && j->woCompare(*i) < 0) j++;` — note the comparison is
`BSONObj::woCompare` with default arguments, i.e. field-name-sensitive. -/
def advanceCursor (i : Key) : List Key → List Key
  | [] => []
  | j :: js => if woCompare j i true < 0 then advanceCursor i js else j :: js

/-- `setDifference(l, r, diff)`: returns the keys of `l` that are not in `r`,
walking a persistent cursor `j` through `r`; an element `i` of `l` is kept
when the cursor is exhausted or `i->woCompare(*j) != 0` (again the
field-name-sensitive default comparison). Precondition in the source:
`verify(l.key_comp().order() == r.key_comp().order())` — both sets use the
same ordering, modelled as sortedness of both lists by `kLT`. -/
def setDifference : List Key → List Key → List Key
  | [], _ => []
  | i :: is, r =>
    match advanceCursor i r with
    | [] => i :: setDifference is []
    | j :: js =>
        if woCompare i j true ≠ 0 then i :: setDifference is (j :: js)
        else setDifference is (j :: js)

/-- `UpdateTicket` together with its `BtreeBasedPrivateUpdateData` payload:
the extracted old/new key sets, the computed delta, the record, the duplicate
policy, and the `_isValid` flag. -/
structure UpdateTicket where
  oldKeys : List Key
  newKeys : List Key
  removed : List Key
  added : List Key
  loc : Nat
  dupsAllowed : Bool
  _isValid : Bool
  deriving DecidableEq, Repr

/-- `BtreeBasedAccessMethod::validateUpdate`: stores old/new keys (extraction
of keys from the documents is external), the record, the duplicate policy,
computes the delta with `setDifference` both ways, and marks the ticket
valid. Pure: no store mutation. -/
def validateUpdate (oldKeys newKeys : List Key) (record : Nat) (dupsAllowed : Bool) :
    UpdateTicket :=
  { oldKeys := oldKeys
    newKeys := newKeys
    removed := setDifference oldKeys newKeys
    added := setDifference newKeys oldKeys
    loc := record
    dupsAllowed := dupsAllowed
    _isValid := true }

/-- Width of C++ size_t. -/
def sizeTW : Nat := 2 ^ 64

/-- The multikey test of `update`:
`data->oldKeys.size() + data->added.size() - data->removed.size() > 1`,
evaluated in unsigned size_t (mod 2^64) arithmetic as in the source. -/
def multikeyCheck (t : UpdateTicket) : Bool :=
  decide (1 <
    ((t.oldKeys.length + t.added.length) % sizeTW + sizeTW - t.removed.length % sizeTW)
      % sizeTW)

/-- The removal loop of `update`: unindex every removed key, one state per
iteration (the second component is the trace of intermediate states). Unlike
`removeOneKey`, the source calls `_newInterface->unindex` directly here. -/
def removeLoop (loc : Nat) (_dupsAllowed : Bool) :
    List Key → MState → MState × List MState
  | [], s => (s, [])
  | k :: rest, s =>
    let s2 := { s with store := unindex s.store k loc }
    let res := removeLoop loc _dupsAllowed rest s2
    (res.1, s2 :: res.2)

/-- The insertion loop of `update`: insert each added key, returning the
first non-OK status immediately (no rollback of anything); the trace records
the state after each successful insertion. -/
def addLoop (storeIns : Key → Status) (loc : Nat) :
    List Key → MState → Status × MState × List MState
  | [], s => (Status.ok, s, [])
  | k :: rest, s =>
    match storeIns k with
    | Status.ok =>
        let s2 := { s with store := s.store ++ [(k, loc)] }
        let res := addLoop storeIns loc rest s2
        (res.1, res.2.1, s2 :: res.2.2)
    | Status.err c => (Status.err c, s, [])

/-- Result of `BtreeBasedAccessMethod::update`. `numUpdated` is an out
parameter in the source, only assigned on the success path; `none` models it
being left unset on an early error return. `trace` lists every intermediate
state, in execution order. -/
structure UpdateResult where
  status : Status
  numUpdated : Option Nat
  state : MState
  trace : List MState
  deriving Repr

/-- The state right after the multikey step of `update`: the flag is set
first, before any store mutation, when the size_t test passes. -/
def updateS0 (t : UpdateTicket) (s : MState) : MState :=
  if multikeyCheck t then { s with multikey := true } else s

/-- `BtreeBasedAccessMethod::update`: an invalid ticket is rejected with
InternalError before anything else; otherwise the multikey flag is set first
(when the size_t test passes), then all removed keys are unindexed, then the
added keys are inserted, aborting on the first failure without rolling back
the removals already applied. -/
def update (storeIns : Key → Status) (t : UpdateTicket) (s : MState) : UpdateResult :=
  if t._isValid = false then
    ⟨Status.err ErrorCode.InternalError, none, s, []⟩
  else
    match addLoop storeIns t.loc t.added
        (removeLoop t.loc t.dupsAllowed t.removed (updateS0 t s)).1 with
    | (Status.ok, s2, tr2) =>
        ⟨Status.ok, some t.added.length, s2,
         (if multikeyCheck t then [updateS0 t s] else []) ++
           (removeLoop t.loc t.dupsAllowed t.removed (updateS0 t s)).2 ++ tr2⟩
    | (Status.err c, s2, tr2) =>
        ⟨Status.err c, none, s2,
         (if multikeyCheck t then [updateS0 t s] else []) ++
           (removeLoop t.loc t.dupsAllowed t.removed (updateS0 t s)).2 ++ tr2⟩

/-- Forward-cursor locate: position at the first entry at-or-after
`(key, rid)` in cursor order (keys compared ignoring field names, ties broken
by RecordId), modelling `cursor->locate(key, RecordId::min())` over the
store's entries listed in cursor order. -/
def cursorLocate (store : Store) (key : Key) (rid : Nat) : Store :=
  store.dropWhile (fun p =>
    decide (woCompare p.1 key false < 0 ∨ (woCompare p.1 key false = 0 ∧ p.2 < rid)))

/-- `BtreeBasedAccessMethod::findSingle`: locate a forward cursor at-or-after
the key with the minimal RecordId; return null (none) at EOF or when the
located entry is not order-equal to the key ignoring field names
(`key.woCompare(cursor->getKey(), BSONObj(), false)`); otherwise the entry's
RecordId. -/
def findSingle (store : Store) (key : Key) : Option Nat :=
  match cursorLocate store key 0 with
  | [] => none
  | p :: _ =>
      if woCompare key p.1 false ≠ 0 then none
      else some p.2

/-- State of `IndexAccessMethod::BulkBuilder` during phase 1: the external
sorter content, the `_keysInserted` counter and the `_isMultiKey` bit. -/
structure BulkBuilderState where
  sorter : List (Key × Nat)
  keysInserted : Nat
  _isMultiKey : Bool
  deriving DecidableEq, Repr

/-- `IndexAccessMethod::BulkBuilder::insert` (phase 1 — accumulate): extract
the keys (passed in), OR the multikey bit with (more than one key), append
every (key, recordId) pair to the sorter counting each, and add the key count
to the caller's counter when one was supplied. Always returns OK; consults no
store and no tolerance policy. -/
def bulkInsert (keys : List Key) (loc : Nat) (numInserted : Option Nat)
    (b : BulkBuilderState) : Status × Option Nat × BulkBuilderState :=
  (Status.ok,
   numInserted.map (fun n => n + keys.length),
   { sorter := b.sorter ++ keys.map (fun k => (k, loc)),
     keysInserted := b.keysInserted + keys.length,
     _isMultiKey := b._isMultiKey || decide (keys.length > 1) })

/-- `std::set<RecordId>::insert`: add once, keep set semantics. -/
def setInsert (sk : List Nat) (r : Nat) : List Nat :=
  if r ∈ sk then sk else sk ++ [r]

/-- The construction loop of `commitBulk` (phase 2): drain the sorted
records; `addKey` gives the outcome of `builder->addKey(d.first, d.second)`;
`out` accumulates the entries the builder accepted. A KeyTooLong is skipped
under the tolerance policy; a DuplicateKey fires `invariant(!dupsAllowed)`
(modelled as an InvariantViolation outcome) and is otherwise recorded in the
caller's duplicate sink and skipped when one was supplied, else returned,
aborting the build; any other failure aborts the build. -/
def commitBulkLoop (addKey : Key → Nat → Status) (ig dupsAllowed : Bool) :
    List (Key × Nat) → Option (List Nat) → List (Key × Nat) →
      Status × Option (List Nat) × List (Key × Nat)
  | [], dt, out => (Status.ok, dt, out)
  | p :: rest, dt, out =>
    match addKey p.1 p.2 with
    | Status.ok => commitBulkLoop addKey ig dupsAllowed rest dt (out ++ [p])
    | Status.err c =>
      if c = ErrorCode.KeyTooLong ∧ ig = true then
        commitBulkLoop addKey ig dupsAllowed rest dt out
      else if c = ErrorCode.DuplicateKey then
        if dupsAllowed = true then (Status.err ErrorCode.InvariantViolation, dt, out)
        else
          match dt with
          | some sk => commitBulkLoop addKey ig dupsAllowed rest (some (setInsert sk p.2)) out
          | none => (Status.err c, none, out)
      else (Status.err c, dt, out)

/-- Result of `commitBulk`: final status, the index state, the caller's
duplicate sink, and the builder's accepted entries. -/
structure BulkResult where
  status : Status
  state : MState
  dupsToDrop : Option (List Nat)
  builderOut : List (Key × Nat)
  deriving Repr

/-- `BtreeBasedAccessMethod::commitBulk`: set the multikey flag up front (in
its own unit of work) when phase 1 observed a multikey document, then run the
construction loop over the sorted records. Write-conflict retries,
per-record units of work and interruption checks are infrastructure handled
by the transaction context and not modelled. -/
def commitBulk (addKey : Key → Nat → Status) (isPrimary failFlag dupsAllowed : Bool)
    (bulkMultikey : Bool) (records : List (Key × Nat)) (dt : Option (List Nat))
    (s : MState) : BulkResult :=
  match commitBulkLoop addKey (ignoreKeyTooLong isPrimary failFlag) dupsAllowed
      records dt [] with
  | (st, dt2, out) =>
      ⟨st, { s with multikey := s.multikey || bulkMultikey }, dt2, out⟩

/-- Concrete store-builder oracle for witnesses: the record with id 2
collides with an earlier key, all other records are accepted. -/
def exAddKey : Key → Nat → Status :=
  fun _ r => if r = 2 then Status.err ErrorCode.DuplicateKey else Status.ok

/-- Concrete sorted record stream for witnesses: the same key for two
records, the second of which loses. -/
def exRecords : List (Key × Nat) := [(Key.mk 0 1, 1), (Key.mk 0 1, 2)]

/-- One maintenance call of this core, carrying its per-call parameters and
store oracles. -/
inductive IndexOp where
  | ins (storeIns : Key → Status) (isPrimary failFlag isReady dupsAllowed : Bool)
        (keys : List Key) (loc : Nat)
  | rem (keys : List Key) (loc : Nat) (dupsAllowed : Bool)
  | upd (storeIns : Key → Status) (t : UpdateTicket)
  | bulk (addKey : Key → Nat → Status) (isPrimary failFlag dupsAllowed bulkMultikey : Bool)
         (records : List (Key × Nat)) (dt : Option (List Nat))

/-- The state transformer of one maintenance call. -/
def applyOp (op : IndexOp) (s : MState) : MState :=
  match op with
  | IndexOp.ins storeIns p f r d keys loc => (insert storeIns p f r d keys loc s).state
  | IndexOp.rem keys loc d => (remove keys loc d s).2.2
  | IndexOp.upd storeIns t => (update storeIns t s).state
  | IndexOp.bulk addKey p f d m records dt => (commitBulk addKey p f d m records dt s).state

/-- A whole sequence of maintenance calls. -/
def applyOps (ops : List IndexOp) (s : MState) : MState :=
  ops.foldl (fun st op => applyOp op st) s

theorem key_eq_iff {a b : Key} : a = b ↔ (a.name = b.name ∧ a.val = b.val) := by
  cases a; cases b; simp

theorem woCompare_full_eq {a b : Key} :
    woCompare a b true =
      (if a.name < b.name then (-1 : Int) else if b.name < a.name then 1
       else if a.val < b.val then -1 else if b.val < a.val then 1 else 0) := by
  simp [woCompare]

theorem woCompare_nn_eq {a b : Key} :
    woCompare a b false =
      (if a.val < b.val then (-1 : Int) else if b.val < a.val then 1 else 0) := by
  simp [woCompare]

theorem woCompare_full_lt_iff {a b : Key} :
    woCompare a b true < 0 ↔ (a.name < b.name ∨ (a.name = b.name ∧ a.val < b.val)) := by
  rw [woCompare_full_eq]
  split_ifs with h1 h2 h3 h4
  all_goals simp
  all_goals omega

theorem woCompare_full_eq_zero {a b : Key} : woCompare a b true = 0 ↔ a = b := by
  rw [woCompare_full_eq, key_eq_iff]
  split_ifs with h1 h2 h3 h4
  all_goals simp
  all_goals omega

theorem woCompare_nn_eq_zero {a b : Key} : woCompare a b false = 0 ↔ a.val = b.val := by
  rw [woCompare_nn_eq]
  split_ifs with h1 h2
  all_goals simp
  all_goals omega

theorem kLT_trans {a b c : Key} (h1 : kLT a b) (h2 : kLT b c) : kLT a c := by
  unfold kLT at *
  rw [woCompare_full_lt_iff] at *
  omega

theorem kLT_irrefl (a : Key) : ¬ kLT a a := by
  unfold kLT
  rw [woCompare_full_lt_iff]
  omega

theorem kLT_asymm {a b : Key} (h : kLT a b) : ¬ kLT b a :=
  fun h' => kLT_irrefl a (kLT_trans h h')

theorem kLT_trichotomy (a b : Key) : kLT a b ∨ a = b ∨ kLT b a := by
  unfold kLT
  rw [woCompare_full_lt_iff, woCompare_full_lt_iff]
  rcases Nat.lt_trichotomy a.name b.name with h | h | h
  · exact Or.inl (Or.inl h)
  · rcases Int.lt_trichotomy a.val b.val with h' | h' | h'
    · exact Or.inl (Or.inr ⟨h, h'⟩)
    · refine Or.inr (Or.inl ?_)
      cases a; cases b; simp_all
    · exact Or.inr (Or.inr (Or.inr ⟨h.symm, h'⟩))
  · exact Or.inr (Or.inr (Or.inl h))

theorem mem_unindex {store : Store} {key : Key} {loc : Nat} {x : Key × Nat} :
    x ∈ unindex store key loc ↔ x ∈ store ∧ ¬(x.1 = key ∧ x.2 = loc) := by
  simp only [unindex, List.mem_filter, decide_eq_true_eq]

/-- The rollback loop only ever shrinks the store. -/

theorem rollback_subset {loc : Nat} {dups : Bool} :
    ∀ (js : List Key) (store : Store) (x : Key × Nat),
      x ∈ js.foldl (fun st j => removeOneKey st j loc dups) store → x ∈ store := by
  intro js
  induction js with
  | nil => intro store x h; exact h
  | cons j rest ih =>
      intro store x h
      have h2 := ih (removeOneKey store j loc dups) x h
      exact (mem_unindex.mp h2).1

/-- After rolling back every key of `js`, no `(j, loc)` entry with `j ∈ js`
remains in the store. -/

theorem rollback_removes {loc : Nat} {dups : Bool} :
    ∀ (js : List Key) (store : Store) (j : Key), j ∈ js →
      (j, loc) ∉ js.foldl (fun st j => removeOneKey st j loc dups) store := by
  intro js
  induction js with
  | nil => intro store j h; cases h
  | cons j0 rest ih =>
      intro store j hmem hcontra
      rw [List.foldl_cons] at hcontra
      rcases List.mem_cons.mp hmem with heq | htail
      · subst heq
        have hin := rollback_subset rest (removeOneKey store j loc dups) (j, loc) hcontra
        exact (mem_unindex.mp hin).2 ⟨rfl, rfl⟩
      · exact ih (removeOneKey store j0 loc dups) j htail hcontra

/-- Behaviour of the `insert` key loop on the error path: the count is
zeroed, every entry for `loc` that survives was already in the store when the
call began and does not belong to a visited key, and the returned status is a
non-tolerated store failure of one of the keys. -/

theorem insertKeys_err (storeIns : Key → Status) (ig isReady dups : Bool) (loc : Nat) :
    ∀ (keys prev : List Key) (count : Nat) (store : Store) (c : ErrorCode)
      (n : Nat) (store' : Store),
      insertKeys storeIns ig isReady dups loc keys prev count store =
        (Status.err c, n, store') →
      n = 0 ∧
      (∀ k : Key, (k, loc) ∈ store' → ((k, loc) ∈ store ∧ k ∉ prev)) ∧
      (∃ k ∈ keys, storeIns k = Status.err c ∧
        ¬(c = ErrorCode.KeyTooLong ∧ ig = true) ∧
        ¬(c = ErrorCode.DuplicateKeyValue ∧ isReady = false)) := by
  intro keys
  induction keys with
  | nil =>
      intro prev count store c n store' h
      simp [insertKeys] at h
  | cons k rest ih =>
      intro prev count store c n store' h
      rw [insertKeys] at h
      cases hk : storeIns k with
      | ok =>
          simp only [hk] at h
          obtain ⟨hn, hp2, kk, hkk, hprop⟩ :=
            ih (prev ++ [k]) (count + 1) (store ++ [(k, loc)]) c n store' h
          refine ⟨hn, ?_, kk, List.mem_cons_of_mem _ hkk, hprop⟩
          intro k2 hk2
          obtain ⟨hmem, hnot⟩ := hp2 k2 hk2
          rcases List.mem_append.mp hmem with hs | hnew
          · exact ⟨hs, fun hc => hnot (List.mem_append_left _ hc)⟩
          · exfalso
            have heq := List.mem_singleton.mp hnew
            have hk2k : k2 = k := congrArg Prod.fst heq
            exact hnot (List.mem_append_right _ (List.mem_singleton.mpr hk2k))
      | err c2 =>
          simp only [hk] at h
          by_cases htol1 : c2 = ErrorCode.KeyTooLong ∧ ig = true
          · rw [if_pos htol1] at h
            obtain ⟨hn, hp2, kk, hkk, hprop⟩ :=
              ih (prev ++ [k]) count store c n store' h
            refine ⟨hn, ?_, kk, List.mem_cons_of_mem _ hkk, hprop⟩
            intro k2 hk2
            obtain ⟨hmem, hnot⟩ := hp2 k2 hk2
            exact ⟨hmem, fun hc => hnot (List.mem_append_left _ hc)⟩
          · rw [if_neg htol1] at h
            by_cases htol2 : c2 = ErrorCode.DuplicateKeyValue ∧ isReady = false
            · rw [if_pos htol2] at h
              obtain ⟨hn, hp2, kk, hkk, hprop⟩ :=
                ih (prev ++ [k]) count store c n store' h
              refine ⟨hn, ?_, kk, List.mem_cons_of_mem _ hkk, hprop⟩
              intro k2 hk2
              obtain ⟨hmem, hnot⟩ := hp2 k2 hk2
              exact ⟨hmem, fun hc => hnot (List.mem_append_left _ hc)⟩
            · rw [if_neg htol2] at h
              injection h with h1 h23
              injection h23 with h2 h3
              injection h1 with hc2
              subst hc2
              refine ⟨h2.symm, ?_, k, List.mem_cons_self _ _, hk, htol1, htol2⟩
              intro k2 hk2
              rw [← h3] at hk2
              exact ⟨rollback_subset prev store (k2, loc) hk2,
                     fun hc => rollback_removes prev store k2 hc hk2⟩

/-- C1: Insert is all-or-nothing. If `insert` reports a failure (an error
that is neither a tolerated KeyTooLong nor a background-build-tolerated
duplicate), then no key of the document remains in the store for this record
(in particular every key inserted earlier in the same call was removed again
by the compensating removal loop), the reported inserted-count is 0, and the
returned status is the non-tolerated store failure of one of the keys. -/

theorem insert_all_or_nothing (storeIns : Key → Status)
    (isPrimary failFlag isReady dupsAllowed : Bool) (keys : List Key) (loc : Nat)
    (s : MState) (c : ErrorCode)
    (hpre : ∀ k ∈ keys, (k, loc) ∉ s.store)
    (herr : (insert storeIns isPrimary failFlag isReady dupsAllowed keys loc s).status =
      Status.err c) :
    (insert storeIns isPrimary failFlag isReady dupsAllowed keys loc s).numInserted = 0 ∧
    (∀ k ∈ keys,
      (k, loc) ∉ (insert storeIns isPrimary failFlag isReady dupsAllowed keys loc s).state.store) ∧
    (∃ k ∈ keys, storeIns k = Status.err c ∧
      ¬(c = ErrorCode.KeyTooLong ∧ ignoreKeyTooLong isPrimary failFlag = true) ∧
      ¬(c = ErrorCode.DuplicateKeyValue ∧ isReady = false)) := by
  rcases hik : insertKeys storeIns (ignoreKeyTooLong isPrimary failFlag) isReady dupsAllowed
      loc keys [] 0 s.store with ⟨st, n, store2⟩
  cases st with
  | ok =>
      exfalso
      rw [insert] at herr
      simp only [hik] at herr
      cases herr
  | err c2 =>
      have hres : insert storeIns isPrimary failFlag isReady dupsAllowed keys loc s =
          ⟨Status.err c2, n, ⟨store2, s.multikey⟩⟩ := by
        rw [insert]
        simp only [hik]
      have hc2 : c2 = c := by
        rw [hres] at herr
        injection herr with h1
      subst hc2
      obtain ⟨hn, hp2, hex⟩ :=
        insertKeys_err storeIns (ignoreKeyTooLong isPrimary failFlag) isReady dupsAllowed loc
          keys [] 0 s.store c2 n store2 hik
      rw [hres]
      refine ⟨hn, ?_, hex⟩
      intro k hkmem hkin
      exact hpre k hkmem (hp2 k hkin).1

/-- Witness for C1 at a concrete input: one key, a store insert failing with
a non-tolerated error on a primary with `failIndexKeyTooLong` on. -/

theorem insert_all_or_nothing_witness :
    ((∀ k ∈ [Key.mk 0 0], (k, (5 : Nat)) ∉ (⟨[], false⟩ : MState).store) ∧
     (insert (fun _ => Status.err ErrorCode.Other) true true true true
        [Key.mk 0 0] 5 ⟨[], false⟩).status = Status.err ErrorCode.Other) ∧
    ((insert (fun _ => Status.err ErrorCode.Other) true true true true
        [Key.mk 0 0] 5 ⟨[], false⟩).numInserted = 0 ∧
     (∀ k ∈ [Key.mk 0 0],
       (k, (5 : Nat)) ∉ (insert (fun _ => Status.err ErrorCode.Other) true true true true
          [Key.mk 0 0] 5 ⟨[], false⟩).state.store) ∧
     (∃ k ∈ [Key.mk 0 0], (fun _ => Status.err ErrorCode.Other) k = Status.err ErrorCode.Other ∧
       ¬(ErrorCode.Other = ErrorCode.KeyTooLong ∧ ignoreKeyTooLong true true = true) ∧
       ¬(ErrorCode.Other = ErrorCode.DuplicateKeyValue ∧ true = false))) :=
  ⟨⟨by decide, by decide⟩,
   insert_all_or_nothing (fun _ => Status.err ErrorCode.Other) true true true true
     [Key.mk 0 0] 5 ⟨[], false⟩ ErrorCode.Other (by decide) (by decide)⟩

theorem advanceCursor_sublist (i : Key) : ∀ r : List Key, (advanceCursor i r).Sublist r := by
  intro r
  induction r with
  | nil => exact List.Sublist.refl []
  | cons j js ih =>
      rw [advanceCursor]
      split_ifs with h
      · exact ih.cons j
      · exact List.Sublist.refl _

theorem advanceCursor_sorted {i : Key} {r : List Key} (hr : List.Sorted kLT r) :
    List.Sorted kLT (advanceCursor i r) :=
  hr.sublist (advanceCursor_sublist i r)

theorem advanceCursor_head_not_lt {i j : Key} {js : List Key} :
    ∀ {r : List Key}, advanceCursor i r = j :: js → ¬ kLT j i := by
  intro r
  induction r with
  | nil => intro h; cases h
  | cons j0 js0 ih =>
      intro h
      rw [advanceCursor] at h
      split_ifs at h with hlt
      · exact ih h
      · injection h with h1 _
        subst h1
        exact fun hc => hlt hc

theorem mem_advanceCursor {i x : Key} :
    ∀ {r : List Key}, List.Sorted kLT r → (x ∈ advanceCursor i r ↔ x ∈ r ∧ ¬ kLT x i) := by
  intro r
  induction r with
  | nil => intro _; simp [advanceCursor]
  | cons j js ih =>
      intro hr
      obtain ⟨hj, hjs⟩ := List.pairwise_cons.mp hr
      rw [advanceCursor]
      split_ifs with hlt
      · rw [ih hjs]
        constructor
        · rintro ⟨hmem, hnl⟩
          exact ⟨List.mem_cons_of_mem _ hmem, hnl⟩
        · rintro ⟨hmem, hnl⟩
          rcases List.mem_cons.mp hmem with heq | htail
          · exact absurd (heq ▸ hlt) hnl
          · exact ⟨htail, hnl⟩
      · constructor
        · intro hmem
          refine ⟨hmem, ?_⟩
          rcases List.mem_cons.mp hmem with heq | htail
          · exact heq ▸ hlt
          · intro hxi
            exact hlt (kLT_trans (hj x htail) hxi)
        · exact fun h => h.1

theorem advanceCursor_eq_nil {i : Key} :
    ∀ {r : List Key}, advanceCursor i r = [] → ∀ j ∈ r, kLT j i := by
  intro r
  induction r with
  | nil => intro _ j hj; cases hj
  | cons j0 js0 ih =>
      intro h j hj
      rw [advanceCursor] at h
      split_ifs at h with hlt
      · rcases List.mem_cons.mp hj with heq | htail
        · exact heq ▸ hlt
        · exact ih h j htail

theorem advanceCursor_head_mem_iff {i j : Key} {js r : List Key}
    (hr : List.Sorted kLT r) (h : advanceCursor i r = j :: js) :
    (i = j ↔ i ∈ r) := by
  constructor
  · intro heq
    subst heq
    exact (advanceCursor_sublist i r).mem (h ▸ List.mem_cons_self _ _)
  · intro hmem
    have hin : i ∈ advanceCursor i r :=
      (mem_advanceCursor hr).mpr ⟨hmem, kLT_irrefl i⟩
    rw [h] at hin
    rcases List.mem_cons.mp hin with heq | htail
    · exact heq
    · exfalso
      have hsorted : List.Sorted kLT (j :: js) := h ▸ advanceCursor_sorted hr
      have hji : kLT j i := (List.pairwise_cons.mp hsorted).1 i htail
      exact advanceCursor_head_not_lt h hji

theorem setDifference_cons_nil {i : Key} {is r : List Key} (h : advanceCursor i r = []) :
    setDifference (i :: is) r = i :: setDifference is [] := by
  rw [setDifference, h]

theorem setDifference_cons_cons {i j : Key} {is js r : List Key}
    (h : advanceCursor i r = j :: js) :
    setDifference (i :: is) r =
      if woCompare i j true ≠ 0 then i :: setDifference is (j :: js)
      else setDifference is (j :: js) := by
  rw [setDifference, h]

/-- With both inputs sorted by the shared (field-name-sensitive) order, the
merge-walk of `setDifference` computes exactly the sorted filter of the left
list by non-membership in the right list. -/

theorem setDifference_eq_filter :
    ∀ (l r : List Key), List.Sorted kLT l → List.Sorted kLT r →
      setDifference l r = l.filter (fun i => decide (i ∉ r)) := by
  intro l
  induction l with
  | nil => intro r _ _; simp [setDifference]
  | cons i is ih =>
      intro r hl hr
      obtain ⟨hi, his⟩ := List.pairwise_cons.mp hl
      have hfilter_congr :
          is.filter (fun x => decide (x ∉ advanceCursor i r)) =
          is.filter (fun x => decide (x ∉ r)) := by
        refine List.filter_congr ?_
        intro x hx
        have hiff : x ∈ advanceCursor i r ↔ x ∈ r := by
          rw [mem_advanceCursor hr]
          constructor
          · exact fun h => h.1
          · intro hmem
            exact ⟨hmem, kLT_asymm (hi x hx)⟩
        exact decide_eq_decide.mpr (not_congr hiff)
      cases hA : advanceCursor i r with
      | nil =>
          rw [setDifference_cons_nil hA]
          have hnotmem : i ∉ r := by
            intro hmem
            exact kLT_irrefl i (advanceCursor_eq_nil hA i hmem)
          rw [List.filter_cons_of_pos (by simpa using hnotmem)]
          rw [ih [] his (by simp)]
          congr 1
          rw [← hfilter_congr, hA]
      | cons j js =>
          rw [setDifference_cons_cons hA]
          have hAsorted : List.Sorted kLT (j :: js) := hA ▸ advanceCursor_sorted hr
          have hmem_iff := advanceCursor_head_mem_iff hr hA
          split_ifs with hne
          · have hnotmem : i ∉ r := by
              intro hmem
              exact hne (woCompare_full_eq_zero.mpr (hmem_iff.mpr hmem))
            rw [List.filter_cons_of_pos (by simpa using hnotmem)]
            rw [ih (j :: js) his hAsorted]
            rw [← hA, hfilter_congr]
          · have heq : i = j := woCompare_full_eq_zero.mp (not_not.mp hne)
            have hmem : i ∈ r := hmem_iff.mp heq
            rw [List.filter_cons_of_neg (by simpa using hmem)]
            rw [ih (j :: js) his hAsorted]
            rw [← hA, hfilter_congr]

/-- Two strictly sorted lists with the same members are equal. -/

theorem sorted_eq_of_mem_iff :
    ∀ {l1 l2 : List Key}, List.Sorted kLT l1 → List.Sorted kLT l2 →
      (∀ x, x ∈ l1 ↔ x ∈ l2) → l1 = l2 := by
  intro l1
  induction l1 with
  | nil =>
      intro l2 _ _ hmem
      cases l2 with
      | nil => rfl
      | cons b t2 => exact absurd ((hmem b).mpr (List.mem_cons_self _ _)) (by simp)
  | cons a t ih =>
      intro l2 h1 h2 hmem
      obtain ⟨ha, ht⟩ := List.pairwise_cons.mp h1
      cases l2 with
      | nil => exact absurd ((hmem a).mp (List.mem_cons_self _ _)) (by simp)
      | cons b t2 =>
          obtain ⟨hb, ht2⟩ := List.pairwise_cons.mp h2
          have hab : a = b := by
            rcases List.mem_cons.mp ((hmem a).mp (List.mem_cons_self _ _)) with h | h
            · exact h
            · rcases List.mem_cons.mp ((hmem b).mpr (List.mem_cons_self _ _)) with h3 | h3
              · exact h3.symm
              · exact absurd (kLT_trans (ha b h3) (hb a h)) (kLT_irrefl a)
          subst hab
          have htails : ∀ x, x ∈ t ↔ x ∈ t2 := by
            intro x
            constructor
            · intro hx
              rcases List.mem_cons.mp ((hmem x).mp (List.mem_cons_of_mem _ hx)) with h | h
              · exact absurd (h ▸ ha x hx) (kLT_irrefl x)
              · exact h
            · intro hx
              rcases List.mem_cons.mp ((hmem x).mpr (List.mem_cons_of_mem _ hx)) with h | h
              · exact absurd (h ▸ hb x hx) (kLT_irrefl x)
              · exact h
          rw [ih ht ht2 htails]

/-- Witness for C2 (amended) at concrete sorted inputs
oldKeys = [{a:1},{a:2}], newKeys = [{a:2},{a:3}]. -/

theorem setDifference_delta_correct (oldKeys newKeys : List Key)
    (hO : List.Sorted kLT oldKeys) (hN : List.Sorted kLT newKeys) :
    setDifference oldKeys newKeys = oldKeys.filter (fun k => decide (k ∉ newKeys)) ∧
    setDifference newKeys oldKeys = newKeys.filter (fun k => decide (k ∉ oldKeys)) ∧
    (∀ k ∈ setDifference newKeys oldKeys, k ∉ oldKeys) ∧
    (∀ k ∈ setDifference oldKeys newKeys, k ∉ newKeys) ∧
    List.Perm
      (oldKeys.filter (fun k => decide (k ∉ setDifference oldKeys newKeys)) ++
        setDifference newKeys oldKeys) newKeys ∧
    List.Sorted kLT (setDifference oldKeys newKeys) ∧
    List.Sorted kLT (setDifference newKeys oldKeys) := by
  have hrem := setDifference_eq_filter oldKeys newKeys hO hN
  have hadd := setDifference_eq_filter newKeys oldKeys hN hO
  refine ⟨hrem, hadd, ?_, ?_, ?_, ?_, ?_⟩
  · intro k hk
    rw [hadd] at hk
    simpa using (List.mem_filter.mp hk).2
  · intro k hk
    rw [hrem] at hk
    simpa using (List.mem_filter.mp hk).2
  · have hstep1 : oldKeys.filter (fun k => decide (k ∉ setDifference oldKeys newKeys)) =
        oldKeys.filter (fun k => decide (k ∈ newKeys)) := by
      refine List.filter_congr ?_
      intro x hx
      rw [hrem]
      simp [List.mem_filter, hx]
    have hstep2 : oldKeys.filter (fun k => decide (k ∈ newKeys)) =
        newKeys.filter (fun k => decide (k ∈ oldKeys)) := by
      refine sorted_eq_of_mem_iff (hO.filter _) (hN.filter _) ?_
      intro x
      simp only [List.mem_filter, decide_eq_true_eq]
      exact and_comm
    have hstep3 : newKeys.filter (fun k => decide (k ∉ oldKeys)) =
        newKeys.filter (fun k => !(decide (k ∈ oldKeys))) := by
      refine List.filter_congr ?_
      intro x _
      simp
    rw [hstep1, hstep2, hadd, hstep3]
    exact List.filter_append_perm _ newKeys
  · rw [hrem]; exact hO.filter _
  · rw [hadd]; exact hN.filter _

theorem setDifference_delta_correct_witness :
    (List.Sorted kLT [Key.mk 0 1, Key.mk 0 2] ∧
     List.Sorted kLT [Key.mk 0 2, Key.mk 0 3]) ∧
    (setDifference [Key.mk 0 1, Key.mk 0 2] [Key.mk 0 2, Key.mk 0 3] =
       List.filter (fun k => decide (k ∉ [Key.mk 0 2, Key.mk 0 3])) [Key.mk 0 1, Key.mk 0 2] ∧
     setDifference [Key.mk 0 2, Key.mk 0 3] [Key.mk 0 1, Key.mk 0 2] =
       List.filter (fun k => decide (k ∉ [Key.mk 0 1, Key.mk 0 2])) [Key.mk 0 2, Key.mk 0 3] ∧
     (∀ k ∈ setDifference [Key.mk 0 2, Key.mk 0 3] [Key.mk 0 1, Key.mk 0 2],
        k ∉ [Key.mk 0 1, Key.mk 0 2]) ∧
     (∀ k ∈ setDifference [Key.mk 0 1, Key.mk 0 2] [Key.mk 0 2, Key.mk 0 3],
        k ∉ [Key.mk 0 2, Key.mk 0 3]) ∧
     List.Perm
       (List.filter
          (fun k => decide (k ∉ setDifference [Key.mk 0 1, Key.mk 0 2] [Key.mk 0 2, Key.mk 0 3]))
          [Key.mk 0 1, Key.mk 0 2] ++
        setDifference [Key.mk 0 2, Key.mk 0 3] [Key.mk 0 1, Key.mk 0 2])
       [Key.mk 0 2, Key.mk 0 3] ∧
     List.Sorted kLT (setDifference [Key.mk 0 1, Key.mk 0 2] [Key.mk 0 2, Key.mk 0 3]) ∧
     List.Sorted kLT (setDifference [Key.mk 0 2, Key.mk 0 3] [Key.mk 0 1, Key.mk 0 2])) :=
  ⟨⟨by simp [List.sorted_cons, kLT, woCompare], by simp [List.sorted_cons, kLT, woCompare]⟩,
   setDifference_delta_correct [Key.mk 0 1, Key.mk 0 2] [Key.mk 0 2, Key.mk 0 3]
     (by simp [List.sorted_cons, kLT, woCompare]) (by simp [List.sorted_cons, kLT, woCompare])⟩

/-- C2 counterexample: the claim as stated is false — `setDifference`
classifies membership by the field-name-SENSITIVE default `woCompare`, not by
order-equality with field names ignored. With oldKeys = [{a:1}] and
newKeys = [{b:1}] (order-equal ignoring field names, both trivially sorted),
the computed removed = [{a:1}] and added = [{b:1}], so removed contains a key
order-equal (ignoring names) to a member of newKeys — violating the claimed
removed ∩ newKeys = ∅ under name-ignoring order-equality. -/

theorem setDifference_fieldname_counterexample :
    List.Sorted kLT [Key.mk 0 1] ∧ List.Sorted kLT [Key.mk 1 1] ∧
    woCompare (Key.mk 0 1) (Key.mk 1 1) false = 0 ∧
    setDifference [Key.mk 0 1] [Key.mk 1 1] = [Key.mk 0 1] ∧
    setDifference [Key.mk 1 1] [Key.mk 0 1] = [Key.mk 1 1] := by
  refine ⟨by simp, by simp, by decide, by decide, by decide⟩

theorem removeLoop_spec (loc : Nat) (dups : Bool) :
    ∀ (ks : List Key) (s : MState),
      (removeLoop loc dups ks s).1.store =
        ks.foldl (fun st j => unindex st j loc) s.store ∧
      (removeLoop loc dups ks s).1.multikey = s.multikey ∧
      ∀ st ∈ (removeLoop loc dups ks s).2, st.multikey = s.multikey := by
  intro ks
  induction ks with
  | nil => intro s; exact ⟨rfl, rfl, by simp [removeLoop]⟩
  | cons k rest ih =>
      intro s
      obtain ⟨h1, h2, h3⟩ := ih { s with store := unindex s.store k loc }
      refine ⟨by simpa [removeLoop] using h1, by simpa [removeLoop] using h2, ?_⟩
      intro st hst
      simp only [removeLoop, List.mem_cons] at hst
      rcases hst with heq | htail
      · rw [heq]
      · exact h3 st htail

theorem addLoop_multikey (storeIns : Key → Status) (loc : Nat) :
    ∀ (ks : List Key) (s : MState),
      (addLoop storeIns loc ks s).2.1.multikey = s.multikey ∧
      ∀ st ∈ (addLoop storeIns loc ks s).2.2, st.multikey = s.multikey := by
  intro ks
  induction ks with
  | nil => intro s; exact ⟨rfl, by simp [addLoop]⟩
  | cons k rest ih =>
      intro s
      rw [addLoop]
      cases hk : storeIns k with
      | ok =>
          obtain ⟨h1, h2⟩ := ih { s with store := s.store ++ [(k, loc)] }
          refine ⟨h1, ?_⟩
          intro st hst
          simp only [List.mem_cons] at hst
          rcases hst with heq | htail
          · rw [heq]
          · exact h2 st htail
      | err c => exact ⟨rfl, by simp⟩

theorem addLoop_all_ok (storeIns : Key → Status) (loc : Nat) :
    ∀ (ks : List Key) (s : MState), (∀ k ∈ ks, storeIns k = Status.ok) →
      (addLoop storeIns loc ks s).1 = Status.ok ∧
      (addLoop storeIns loc ks s).2.1.store = s.store ++ ks.map (fun k => (k, loc)) := by
  intro ks
  induction ks with
  | nil => intro s _; exact ⟨rfl, by simp [addLoop]⟩
  | cons k rest ih =>
      intro s hok
      have hk := hok k (List.mem_cons_self _ _)
      obtain ⟨h1, h2⟩ := ih { s with store := s.store ++ [(k, loc)] }
        (fun k2 hk2 => hok k2 (List.mem_cons_of_mem _ hk2))
      simp only [addLoop, hk]
      exact ⟨h1, by rw [h2]; simp⟩

theorem addLoop_fail (storeIns : Key → Status) (loc : Nat) :
    ∀ (pre : List Key) (kf : Key) (post : List Key) (s : MState),
      (∀ k ∈ pre, storeIns k = Status.ok) → storeIns kf ≠ Status.ok →
      (addLoop storeIns loc (pre ++ kf :: post) s).1 = storeIns kf ∧
      (addLoop storeIns loc (pre ++ kf :: post) s).2.1.store =
        s.store ++ pre.map (fun k => (k, loc)) := by
  intro pre
  induction pre with
  | nil =>
      intro kf post s _ hf
      rw [List.nil_append]
      cases hk : storeIns kf with
      | ok => exact absurd hk hf
      | err c => simp [addLoop, hk]
  | cons k rest ih =>
      intro kf post s hok hf
      have hk := hok k (List.mem_cons_self _ _)
      obtain ⟨h1, h2⟩ := ih kf post { s with store := s.store ++ [(k, loc)] }
        (fun k2 hk2 => hok k2 (List.mem_cons_of_mem _ hk2)) hf
      rw [List.cons_append]
      simp only [addLoop, hk]
      exact ⟨h1, by rw [h2]; simp⟩

theorem updateS0_store (t : UpdateTicket) (s : MState) : (updateS0 t s).store = s.store := by
  unfold updateS0
  split
  · rfl
  · rfl

theorem updateS0_of_check {t : UpdateTicket} (s : MState) (h : multikeyCheck t = true) :
    updateS0 t s = { s with multikey := true } := by
  simp [updateS0, h]

/-- Under realistic sizes (fewer than 2^64 keys, removed no larger than
oldKeys ++ added — guaranteed for tickets built by validateUpdate), the
size_t multikey test agrees with the mathematical reading of
`|oldKeys| + |added| − |removed| > 1`. -/

theorem multikeyCheck_iff (t : UpdateTicket)
    (hle : t.removed.length ≤ t.oldKeys.length + t.added.length)
    (hW : t.oldKeys.length + t.added.length < sizeTW) :
    (multikeyCheck t = true ↔ 1 < t.oldKeys.length + t.added.length - t.removed.length) := by
  unfold multikeyCheck
  rw [Nat.mod_eq_of_lt hW, Nat.mod_eq_of_lt (lt_of_le_of_lt hle hW)]
  have h3 : t.oldKeys.length + t.added.length + sizeTW - t.removed.length
      = (t.oldKeys.length + t.added.length - t.removed.length) + sizeTW := by omega
  rw [h3, Nat.add_mod_right,
      Nat.mod_eq_of_lt (by omega : t.oldKeys.length + t.added.length - t.removed.length < sizeTW)]
  simp

/-- Characterization of `update` on a valid ticket: the result is assembled
from the multikey step, the removal loop and the insertion loop. -/

theorem update_valid_components (storeIns : Key → Status) (t : UpdateTicket) (s : MState)
    (hv : t._isValid = true) :
    (update storeIns t s).state =
      (addLoop storeIns t.loc t.added
        (removeLoop t.loc t.dupsAllowed t.removed (updateS0 t s)).1).2.1 ∧
    (update storeIns t s).trace =
      (if multikeyCheck t then [updateS0 t s] else []) ++
        (removeLoop t.loc t.dupsAllowed t.removed (updateS0 t s)).2 ++
        (addLoop storeIns t.loc t.added
          (removeLoop t.loc t.dupsAllowed t.removed (updateS0 t s)).1).2.2 ∧
    (update storeIns t s).status =
      (addLoop storeIns t.loc t.added
        (removeLoop t.loc t.dupsAllowed t.removed (updateS0 t s)).1).1 ∧
    (update storeIns t s).numUpdated =
      (match (addLoop storeIns t.loc t.added
          (removeLoop t.loc t.dupsAllowed t.removed (updateS0 t s)).1).1 with
       | Status.ok => some t.added.length
       | Status.err _ => none) := by
  rcases haL : addLoop storeIns t.loc t.added
      (removeLoop t.loc t.dupsAllowed t.removed (updateS0 t s)).1 with ⟨st, s2, tr2⟩
  cases st with
  | ok => simp [update, hv, haL]
  | err c => simp [update, hv, haL]

theorem unindexFold_subset {loc : Nat} :
    ∀ (js : List Key) (store : Store) (x : Key × Nat),
      x ∈ js.foldl (fun st j => unindex st j loc) store → x ∈ store := by
  intro js
  induction js with
  | nil => intro store x h; exact h
  | cons j rest ih =>
      intro store x h
      exact (mem_unindex.mp (ih (unindex store j loc) x h)).1

theorem unindexFold_removes {loc : Nat} :
    ∀ (js : List Key) (store : Store) (j : Key), j ∈ js →
      (j, loc) ∉ js.foldl (fun st j => unindex st j loc) store := by
  intro js
  induction js with
  | nil => intro store j h; cases h
  | cons j0 rest ih =>
      intro store j hmem hcontra
      rw [List.foldl_cons] at hcontra
      rcases List.mem_cons.mp hmem with heq | htail
      · subst heq
        have hin := unindexFold_subset rest (unindex store j loc) (j, loc) hcontra
        exact (mem_unindex.mp hin).2 ⟨rfl, rfl⟩
      · exact ih (unindex store j0 loc) j htail hcontra

/-- C3 counterexample: the claim that a successful `update` consumes the
ticket (valid flag false afterwards, re-apply is an error) is false of the
code — `update` takes the ticket by const reference and never clears
`_isValid`, so applying the very same freshly planned ticket twice succeeds
both times instead of failing the second time with an internal error. -/

theorem update_ticket_not_consumed_counterexample :
    (validateUpdate [Key.mk 0 1] [Key.mk 0 2] 7 true)._isValid = true ∧
    (update (fun _ => Status.ok) (validateUpdate [Key.mk 0 1] [Key.mk 0 2] 7 true)
        ⟨[(Key.mk 0 1, 7)], false⟩).status = Status.ok ∧
    (update (fun _ => Status.ok) (validateUpdate [Key.mk 0 1] [Key.mk 0 2] 7 true)
        (update (fun _ => Status.ok) (validateUpdate [Key.mk 0 1] [Key.mk 0 2] 7 true)
          ⟨[(Key.mk 0 1, 7)], false⟩).state).status = Status.ok ∧
    (update (fun _ => Status.ok) (validateUpdate [Key.mk 0 1] [Key.mk 0 2] 7 true)
        (update (fun _ => Status.ok) (validateUpdate [Key.mk 0 1] [Key.mk 0 2] 7 true)
          ⟨[(Key.mk 0 1, 7)], false⟩).state).status ≠
      Status.err ErrorCode.InternalError := by
  exact ⟨rfl, by decide, by decide, by decide⟩

/-- Witness for C3 (amended) at a concrete never-planned ticket. -/

theorem update_invalid_ticket_rejected (storeIns : Key → Status) (t : UpdateTicket)
    (s : MState) (h : t._isValid = false) :
    (update storeIns t s).status = Status.err ErrorCode.InternalError ∧
    (update storeIns t s).state = s ∧
    (update storeIns t s).numUpdated = none ∧
    (update storeIns t s).trace = [] := by
  simp [update, h]

theorem update_invalid_ticket_rejected_witness :
    ({ oldKeys := [], newKeys := [], removed := [], added := [], loc := 0,
       dupsAllowed := true, _isValid := false } : UpdateTicket)._isValid = false ∧
    ((update (fun _ => Status.ok)
        { oldKeys := [], newKeys := [], removed := [], added := [], loc := 0,
          dupsAllowed := true, _isValid := false } ⟨[], false⟩).status =
          Status.err ErrorCode.InternalError ∧
     (update (fun _ => Status.ok)
        { oldKeys := [], newKeys := [], removed := [], added := [], loc := 0,
          dupsAllowed := true, _isValid := false } ⟨[], false⟩).state = ⟨[], false⟩ ∧
     (update (fun _ => Status.ok)
        { oldKeys := [], newKeys := [], removed := [], added := [], loc := 0,
          dupsAllowed := true, _isValid := false } ⟨[], false⟩).numUpdated = none ∧
     (update (fun _ => Status.ok)
        { oldKeys := [], newKeys := [], removed := [], added := [], loc := 0,
          dupsAllowed := true, _isValid := false } ⟨[], false⟩).trace = []) :=
  ⟨rfl, update_invalid_ticket_rejected (fun _ => Status.ok) _ ⟨[], false⟩ rfl⟩

/-- C4: update does not compensate. For a valid ticket whose added keys split
as pre ++ kf :: post with every key of pre inserting fine and kf failing,
`update` returns kf's failure immediately, leaves the out-count unset, and
the final store is exactly the store after all removals plus the pre
insertions — in particular every removed key (none of which was re-inserted)
stays removed: no rollback of removals, asymmetric with insert. -/

theorem update_no_rollback_of_removals (storeIns : Key → Status) (t : UpdateTicket)
    (s : MState) (pre : List Key) (kf : Key) (post : List Key)
    (hv : t._isValid = true)
    (hsplit : t.added = pre ++ kf :: post)
    (hok : ∀ k ∈ pre, storeIns k = Status.ok)
    (hf : storeIns kf ≠ Status.ok)
    (hdisj : ∀ k ∈ t.removed, k ∉ pre) :
    (update storeIns t s).status = storeIns kf ∧
    (update storeIns t s).status ≠ Status.ok ∧
    (update storeIns t s).numUpdated = none ∧
    (update storeIns t s).state.store =
      t.removed.foldl (fun st j => unindex st j t.loc) s.store ++
        pre.map (fun k => (k, t.loc)) ∧
    (∀ k ∈ t.removed, (k, t.loc) ∉ (update storeIns t s).state.store) := by
  obtain ⟨hstate, _htrace, hstatus, hnum⟩ := update_valid_components storeIns t s hv
  obtain ⟨hr1, _hr2, _hr3⟩ := removeLoop_spec t.loc t.dupsAllowed t.removed (updateS0 t s)
  have ha := addLoop_fail storeIns t.loc pre kf post
      (removeLoop t.loc t.dupsAllowed t.removed (updateS0 t s)).1 hok hf
  rw [← hsplit] at ha
  obtain ⟨ha1, ha2⟩ := ha
  have hstorefinal : (update storeIns t s).state.store =
      t.removed.foldl (fun st j => unindex st j t.loc) s.store ++
        pre.map (fun k => (k, t.loc)) := by
    rw [hstate, ha2, hr1, updateS0_store]
  refine ⟨hstatus.trans ha1, ?_, ?_, hstorefinal, ?_⟩
  · rw [hstatus, ha1]
    exact hf
  · rw [hnum, ha1]
    cases hfk : storeIns kf with
    | ok => exact absurd hfk hf
    | err c => rfl
  · intro k hk hcontra
    rw [hstorefinal] at hcontra
    rcases List.mem_append.mp hcontra with hleft | hright
    · exact unindexFold_removes t.removed s.store k hk hleft
    · obtain ⟨k2, hk2, heq⟩ := List.mem_map.mp hright
      have : k2 = k := congrArg Prod.fst heq
      exact hdisj k hk (this ▸ hk2)

/-- Witness for C4: removed = [{a:1}], added = [{a:2}] with the store insert
failing; the removed entry stays removed and the failure is returned. -/

theorem update_no_rollback_of_removals_witness :
    ((validateUpdate [Key.mk 0 1] [Key.mk 0 2] 7 true)._isValid = true ∧
     (validateUpdate [Key.mk 0 1] [Key.mk 0 2] 7 true).added = [] ++ Key.mk 0 2 :: [] ∧
     (∀ k ∈ ([] : List Key), (fun _ => Status.err ErrorCode.Other) k = Status.ok) ∧
     (fun (_ : Key) => Status.err ErrorCode.Other) (Key.mk 0 2) ≠ Status.ok ∧
     (∀ k ∈ (validateUpdate [Key.mk 0 1] [Key.mk 0 2] 7 true).removed,
        k ∉ ([] : List Key))) ∧
    ((update (fun _ => Status.err ErrorCode.Other)
        (validateUpdate [Key.mk 0 1] [Key.mk 0 2] 7 true)
        ⟨[(Key.mk 0 1, 7)], false⟩).status = (fun _ => Status.err ErrorCode.Other) (Key.mk 0 2) ∧
     (update (fun _ => Status.err ErrorCode.Other)
        (validateUpdate [Key.mk 0 1] [Key.mk 0 2] 7 true)
        ⟨[(Key.mk 0 1, 7)], false⟩).status ≠ Status.ok ∧
     (update (fun _ => Status.err ErrorCode.Other)
        (validateUpdate [Key.mk 0 1] [Key.mk 0 2] 7 true)
        ⟨[(Key.mk 0 1, 7)], false⟩).numUpdated = none ∧
     (update (fun _ => Status.err ErrorCode.Other)
        (validateUpdate [Key.mk 0 1] [Key.mk 0 2] 7 true)
        ⟨[(Key.mk 0 1, 7)], false⟩).state.store =
       (validateUpdate [Key.mk 0 1] [Key.mk 0 2] 7 true).removed.foldl
         (fun st j => unindex st j (validateUpdate [Key.mk 0 1] [Key.mk 0 2] 7 true).loc)
         [(Key.mk 0 1, 7)] ++
         List.map (fun k => (k, (validateUpdate [Key.mk 0 1] [Key.mk 0 2] 7 true).loc)) [] ∧
     (∀ k ∈ (validateUpdate [Key.mk 0 1] [Key.mk 0 2] 7 true).removed,
        (k, (validateUpdate [Key.mk 0 1] [Key.mk 0 2] 7 true).loc) ∉
          (update (fun _ => Status.err ErrorCode.Other)
            (validateUpdate [Key.mk 0 1] [Key.mk 0 2] 7 true)
            ⟨[(Key.mk 0 1, 7)], false⟩).state.store)) :=
  ⟨⟨rfl, by decide, by decide, by decide, by decide⟩,
   update_no_rollback_of_removals (fun _ => Status.err ErrorCode.Other)
     (validateUpdate [Key.mk 0 1] [Key.mk 0 2] 7 true) ⟨[(Key.mk 0 1, 7)], false⟩
     [] (Key.mk 0 2) [] rfl (by decide) (by decide) (by decide) (by decide)⟩

/-- C5: in `update`, whenever |oldKeys| + |added| − |removed| > 1 (under the
realistic size side conditions making the size_t arithmetic exact), the
multikey flag is set before any key removal or insertion: the first recorded
state is the flag flip with the store untouched, every intermediate state of
the execution has the flag set, and so does the final state — even on runs
that fail partway. -/

theorem update_sets_multikey_before_mutation (storeIns : Key → Status) (t : UpdateTicket)
    (s : MState)
    (hv : t._isValid = true)
    (hle : t.removed.length ≤ t.oldKeys.length + t.added.length)
    (hW : t.oldKeys.length + t.added.length < sizeTW)
    (hmk : 1 < t.oldKeys.length + t.added.length - t.removed.length) :
    (update storeIns t s).trace.head? = some { s with multikey := true } ∧
    (∀ st ∈ (update storeIns t s).trace, st.multikey = true) ∧
    (update storeIns t s).state.multikey = true := by
  have hcheck : multikeyCheck t = true := (multikeyCheck_iff t hle hW).mpr hmk
  have hs0 : updateS0 t s = { s with multikey := true } := updateS0_of_check s hcheck
  obtain ⟨hstate, htrace, _hstatus, _hnum⟩ := update_valid_components storeIns t s hv
  obtain ⟨_hr1, hr2, hr3⟩ := removeLoop_spec t.loc t.dupsAllowed t.removed (updateS0 t s)
  obtain ⟨ha1, ha2⟩ := addLoop_multikey storeIns t.loc t.added
      (removeLoop t.loc t.dupsAllowed t.removed (updateS0 t s)).1
  have hs0mk : (updateS0 t s).multikey = true := by rw [hs0]
  refine ⟨?_, ?_, ?_⟩
  · rw [htrace, hcheck]
    simp [hs0]
  · intro st hst
    rw [htrace, hcheck] at hst
    simp only [if_true, List.append_assoc, List.mem_append, List.mem_singleton] at hst
    rcases hst with heq | hrm | hadd2
    · rw [heq, hs0]
    · rw [hr3 st hrm, hs0mk]
    · rw [ha2 st hadd2, hr2, hs0mk]
  · rw [hstate, ha1, hr2, hs0mk]

/-- Witness for C5: oldKeys = [{a:1},{a:2}] shrinking to newKeys = [{a:2},{a:3}]
(2 + 1 − 1 = 2 > 1): flag set first and held throughout. -/

theorem update_sets_multikey_before_mutation_witness :
    ((validateUpdate [Key.mk 0 1, Key.mk 0 2] [Key.mk 0 2, Key.mk 0 3] 7 true)._isValid = true ∧
     (validateUpdate [Key.mk 0 1, Key.mk 0 2] [Key.mk 0 2, Key.mk 0 3] 7 true).removed.length ≤
       (validateUpdate [Key.mk 0 1, Key.mk 0 2] [Key.mk 0 2, Key.mk 0 3] 7 true).oldKeys.length +
       (validateUpdate [Key.mk 0 1, Key.mk 0 2] [Key.mk 0 2, Key.mk 0 3] 7 true).added.length ∧
     (validateUpdate [Key.mk 0 1, Key.mk 0 2] [Key.mk 0 2, Key.mk 0 3] 7 true).oldKeys.length +
       (validateUpdate [Key.mk 0 1, Key.mk 0 2] [Key.mk 0 2, Key.mk 0 3] 7 true).added.length <
       sizeTW ∧
     1 < (validateUpdate [Key.mk 0 1, Key.mk 0 2] [Key.mk 0 2, Key.mk 0 3] 7 true).oldKeys.length +
       (validateUpdate [Key.mk 0 1, Key.mk 0 2] [Key.mk 0 2, Key.mk 0 3] 7 true).added.length -
       (validateUpdate [Key.mk 0 1, Key.mk 0 2] [Key.mk 0 2, Key.mk 0 3] 7 true).removed.length) ∧
    ((update (fun _ => Status.ok)
        (validateUpdate [Key.mk 0 1, Key.mk 0 2] [Key.mk 0 2, Key.mk 0 3] 7 true)
        ⟨[(Key.mk 0 1, 7), (Key.mk 0 2, 7)], false⟩).trace.head? =
       some { store := [(Key.mk 0 1, 7), (Key.mk 0 2, 7)], multikey := true } ∧
     (∀ st ∈ (update (fun _ => Status.ok)
        (validateUpdate [Key.mk 0 1, Key.mk 0 2] [Key.mk 0 2, Key.mk 0 3] 7 true)
        ⟨[(Key.mk 0 1, 7), (Key.mk 0 2, 7)], false⟩).trace, st.multikey = true) ∧
     (update (fun _ => Status.ok)
        (validateUpdate [Key.mk 0 1, Key.mk 0 2] [Key.mk 0 2, Key.mk 0 3] 7 true)
        ⟨[(Key.mk 0 1, 7), (Key.mk 0 2, 7)], false⟩).state.multikey = true) :=
  ⟨⟨rfl, by decide, by decide, by decide⟩,
   update_sets_multikey_before_mutation (fun _ => Status.ok)
     (validateUpdate [Key.mk 0 1, Key.mk 0 2] [Key.mk 0 2, Key.mk 0 3] 7 true)
     ⟨[(Key.mk 0 1, 7), (Key.mk 0 2, 7)], false⟩ rfl (by decide) (by decide) (by decide)⟩

theorem findSingle_of_locate_nil {store : Store} {key : Key}
    (h : cursorLocate store key 0 = []) : findSingle store key = none := by
  rw [findSingle, h]

theorem findSingle_of_locate_cons {store : Store} {key : Key} {p : Key × Nat}
    {rest : Store} (h : cursorLocate store key 0 = p :: rest) :
    findSingle store key = if woCompare key p.1 false ≠ 0 then none else some p.2 := by
  rw [findSingle, h]

/-- C6: findSingle exact-match semantics. It returns a RecordId only for an
entry of the store that compares order-equal to the key ignoring field names
(never a neighboring key's record); it returns not-found on an empty store
and whenever no stored entry is order-equal to the key (cursor exhausted or
located entry mismatched). -/

theorem findSingle_exact (store : Store) (key : Key) :
    (findSingle ([] : Store) key = none) ∧
    (∀ rid, findSingle store key = some rid →
       ∃ k2, (k2, rid) ∈ store ∧ woCompare key k2 false = 0) ∧
    ((∀ p ∈ store, woCompare key p.1 false ≠ 0) → findSingle store key = none) := by
  refine ⟨rfl, ?_, ?_⟩
  · intro rid hfound
    cases hloc : cursorLocate store key 0 with
    | nil => rw [findSingle_of_locate_nil hloc] at hfound; cases hfound
    | cons p rest =>
        rw [findSingle_of_locate_cons hloc] at hfound
        by_cases hcmp : woCompare key p.1 false ≠ 0
        · rw [if_pos hcmp] at hfound; cases hfound
        · rw [if_neg hcmp] at hfound
          injection hfound with hr
          refine ⟨p.1, ?_, not_not.mp hcmp⟩
          have hsub : (cursorLocate store key 0).Sublist store := List.dropWhile_sublist _
          have hmem : p ∈ store := hsub.mem (hloc ▸ List.mem_cons_self _ _)
          rw [← hr]
          exact hmem
  · intro hall
    cases hloc : cursorLocate store key 0 with
    | nil => exact findSingle_of_locate_nil hloc
    | cons p rest =>
        rw [findSingle_of_locate_cons hloc]
        have hsub : (cursorLocate store key 0).Sublist store := List.dropWhile_sublist _
        have hmem : p ∈ store := hsub.mem (hloc ▸ List.mem_cons_self _ _)
        rw [if_pos (hall p hmem)]

/-- Witness for C6: store holding one entry whose key is order-equal
(ignoring its different field name) to the probe key yields that RecordId. -/

theorem findSingle_exact_witness :
    findSingle [(Key.mk 0 5, 7)] (Key.mk 1 5) = some 7 ∧
    (∃ k2, (k2, 7) ∈ [(Key.mk 0 5, 7)] ∧ woCompare (Key.mk 1 5) k2 false = 0) :=
  ⟨by decide, (findSingle_exact [(Key.mk 0 5, 7)] (Key.mk 1 5)).2.1 7 (by decide)⟩

/-- C7: key-too-long tolerance policy. An oversized key is tolerated exactly
when the process is not primary for the collection, or the process-wide
`failIndexKeyTooLong` parameter is off (tolerating oversized keys enabled).
The helper is a pure function of the per-call role and setting — nothing is
cached — and the tolerance insert actually applies to a KeyTooLong store
failure is exactly the value for the flags of that call. -/

theorem ignoreKeyTooLong_policy :
    (∀ isPrimary failFlag : Bool,
       ignoreKeyTooLong isPrimary failFlag = true ↔
         (isPrimary = false ∨ failFlag = false)) ∧
    (∀ (isPrimary failFlag : Bool) (k : Key) (loc : Nat) (s : MState)
       (storeIns : Key → Status),
       storeIns k = Status.err ErrorCode.KeyTooLong →
       ((insert storeIns isPrimary failFlag true true [k] loc s).status = Status.ok ↔
         ignoreKeyTooLong isPrimary failFlag = true)) := by
  constructor
  · decide
  · intro isPrimary failFlag k loc s storeIns hk
    cases hig : ignoreKeyTooLong isPrimary failFlag with
    | true => simp [insert, insertKeys, hk, hig]
    | false => simp [insert, insertKeys, hk, hig]

/-- Witness for C7 on a primary with failIndexKeyTooLong disabled: the
oversized key is skipped and insert still reports OK. -/

theorem ignoreKeyTooLong_policy_witness :
    ((fun (_ : Key) => Status.err ErrorCode.KeyTooLong) (Key.mk 0 0) =
       Status.err ErrorCode.KeyTooLong) ∧
    ((insert (fun _ => Status.err ErrorCode.KeyTooLong) true false true true
        [Key.mk 0 0] 3 ⟨[], false⟩).status = Status.ok ↔
       ignoreKeyTooLong true false = true) :=
  ⟨rfl, ignoreKeyTooLong_policy.2 true false (Key.mk 0 0) 3 ⟨[], false⟩
     (fun _ => Status.err ErrorCode.KeyTooLong) rfl⟩

/-- C10: bulk phase-1 accumulation never fails and never touches the store:
for every document, the result is OK, the only mutations are appending the
extracted (key, recordId) pairs to the sorter and bumping the two counters by
the key count, and multikey-observed is ORed in exactly when the document
yielded more than one key. No KeyTooLong or duplicate policy can be evaluated:
the phase-1 step takes no store outcome and no policy input at all. -/

theorem bulkInsert_accumulates (keys : List Key) (loc : Nat) (numInserted : Option Nat)
    (b : BulkBuilderState) :
    (bulkInsert keys loc numInserted b).1 = Status.ok ∧
    (bulkInsert keys loc numInserted b).2.2.sorter =
      b.sorter ++ keys.map (fun k => (k, loc)) ∧
    (bulkInsert keys loc numInserted b).2.2.keysInserted = b.keysInserted + keys.length ∧
    (bulkInsert keys loc numInserted b).2.2._isMultiKey =
      (b._isMultiKey || decide (keys.length > 1)) ∧
    (bulkInsert keys loc numInserted b).2.1 = numInserted.map (fun n => n + keys.length) :=
  ⟨rfl, rfl, rfl, rfl, rfl⟩

theorem mem_setInsert {sk : List Nat} {r x : Nat} :
    x ∈ setInsert sk r ↔ x ∈ sk ∨ x = r := by
  unfold setInsert
  split_ifs with h
  · constructor
    · exact fun hx => Or.inl hx
    · rintro (hx | rfl)
      · exact hx
      · exact h
  · simp

theorem setInsert_nodup {sk : List Nat} {r : Nat} (h : sk.Nodup) :
    (setInsert sk r).Nodup := by
  unfold setInsert
  split_ifs with hmem
  · exact h
  · simpa [List.nodup_append, hmem] using h

/-- With a duplicate sink and only tolerable outcomes (success, policy-skipped
KeyTooLong, DuplicateKey), the loop runs to completion: final sink folds in
the colliding RecordIds, and the builder output keeps exactly the accepted
records. -/

theorem commitBulkLoop_tolerated (addKey : Key → Nat → Status) (ig : Bool) :
    ∀ (records : List (Key × Nat)) (sk : List Nat) (out : List (Key × Nat)),
      (∀ p ∈ records, addKey p.1 p.2 = Status.ok ∨
         (addKey p.1 p.2 = Status.err ErrorCode.KeyTooLong ∧ ig = true) ∨
         addKey p.1 p.2 = Status.err ErrorCode.DuplicateKey) →
      commitBulkLoop addKey ig false records (some sk) out =
        (Status.ok,
         some (records.foldl (fun acc p =>
            if addKey p.1 p.2 = Status.err ErrorCode.DuplicateKey then setInsert acc p.2
            else acc) sk),
         out ++ records.filter (fun p => addKey p.1 p.2 == Status.ok)) := by
  intro records
  induction records with
  | nil => intro sk out _; simp [commitBulkLoop]
  | cons p rest ih =>
      intro sk out htol
      have htl := fun q hq => htol q (List.mem_cons_of_mem _ hq)
      rcases htol p (List.mem_cons_self _ _) with hok | ⟨hktl, hig⟩ | hdup
      · have hstep : commitBulkLoop addKey ig false (p :: rest) (some sk) out =
            commitBulkLoop addKey ig false rest (some sk) (out ++ [p]) := by
          simp [commitBulkLoop, hok]
        rw [hstep, ih sk (out ++ [p]) htl]
        simp [List.filter_cons, List.foldl_cons, hok]
      · have hstep : commitBulkLoop addKey ig false (p :: rest) (some sk) out =
            commitBulkLoop addKey ig false rest (some sk) out := by
          simp [commitBulkLoop, hktl, hig]
        rw [hstep, ih sk out htl]
        have hne : ¬ addKey p.1 p.2 = Status.err ErrorCode.DuplicateKey := by
          rw [hktl]; decide
        have hne2 : ¬ addKey p.1 p.2 = Status.ok := by
          rw [hktl]; decide
        simp [List.filter_cons, List.foldl_cons, hne, hne2]
      · have hstep : commitBulkLoop addKey ig false (p :: rest) (some sk) out =
            commitBulkLoop addKey ig false rest (some (setInsert sk p.2)) out := by
          simp [commitBulkLoop, hdup]
        rw [hstep, ih (setInsert sk p.2) out htl]
        have hne2 : ¬ addKey p.1 p.2 = Status.ok := by
          rw [hdup]; decide
        simp [List.filter_cons, List.foldl_cons, hdup, hne2]

/-- Membership in the duplicate-sink fold. -/

theorem foldlDup_mem (addKey : Key → Nat → Status) :
    ∀ (records : List (Key × Nat)) (sk : List Nat) (r : Nat),
      (r ∈ records.foldl (fun acc p =>
          if addKey p.1 p.2 = Status.err ErrorCode.DuplicateKey then setInsert acc p.2
          else acc) sk ↔
        r ∈ sk ∨ ∃ k, (k, r) ∈ records ∧ addKey k r = Status.err ErrorCode.DuplicateKey) := by
  intro records
  induction records with
  | nil => intro sk r; simp
  | cons p rest ih =>
      intro sk r
      rw [List.foldl_cons, ih]
      by_cases hdup : addKey p.1 p.2 = Status.err ErrorCode.DuplicateKey
      · rw [if_pos hdup]
        rw [mem_setInsert]
        constructor
        · rintro ((hsk | hrp) | ⟨k, hk, hka⟩)
          · exact Or.inl hsk
          · subst hrp
            exact Or.inr ⟨p.1, List.mem_cons_self _ _, hdup⟩
          · exact Or.inr ⟨k, List.mem_cons_of_mem _ hk, hka⟩
        · rintro (hsk | ⟨k, hk, hka⟩)
          · exact Or.inl (Or.inl hsk)
          · rcases List.mem_cons.mp hk with heq | htail
            · exact Or.inl (Or.inr (congrArg Prod.snd heq))
            · exact Or.inr ⟨k, htail, hka⟩
      · rw [if_neg hdup]
        constructor
        · rintro (hsk | ⟨k, hk, hka⟩)
          · exact Or.inl hsk
          · exact Or.inr ⟨k, List.mem_cons_of_mem _ hk, hka⟩
        · rintro (hsk | ⟨k, hk, hka⟩)
          · exact Or.inl hsk
          · rcases List.mem_cons.mp hk with heq | htail
            · exfalso
              apply hdup
              have h1 : k = p.1 := congrArg Prod.fst heq
              have h2 : r = p.2 := congrArg Prod.snd heq
              rw [← h1, ← h2]
              exact hka
            · exact Or.inr ⟨k, htail, hka⟩

/-- The duplicate-sink fold preserves set semantics (no RecordId twice). -/

theorem foldlDup_nodup (addKey : Key → Nat → Status) :
    ∀ (records : List (Key × Nat)) (sk : List Nat), sk.Nodup →
      (records.foldl (fun acc p =>
          if addKey p.1 p.2 = Status.err ErrorCode.DuplicateKey then setInsert acc p.2
          else acc) sk).Nodup := by
  intro records
  induction records with
  | nil => intro sk h; exact h
  | cons p rest ih =>
      intro sk h
      rw [List.foldl_cons]
      split_ifs with hdup
      · exact ih _ (setInsert_nodup h)
      · exact ih _ h

/-- Aborting path: with no duplicate sink, the first DuplicateKey (after any
prefix of accepted or policy-skipped records) aborts the loop with exactly
that failure. -/

theorem commitBulkLoop_none_abort (addKey : Key → Nat → Status) (ig : Bool) :
    ∀ (rpre : List (Key × Nat)) (p : Key × Nat) (rpost : List (Key × Nat))
      (out : List (Key × Nat)),
      (∀ q ∈ rpre, addKey q.1 q.2 = Status.ok ∨
         (addKey q.1 q.2 = Status.err ErrorCode.KeyTooLong ∧ ig = true)) →
      addKey p.1 p.2 = Status.err ErrorCode.DuplicateKey →
      (commitBulkLoop addKey ig false (rpre ++ p :: rpost) none out).1 =
        Status.err ErrorCode.DuplicateKey := by
  intro rpre
  induction rpre with
  | nil =>
      intro p rpost out _ hdup
      rw [List.nil_append]
      simp [commitBulkLoop, hdup]
  | cons q rest ih =>
      intro p rpost out hok hdup
      rw [List.cons_append]
      rcases hok q (List.mem_cons_self _ _) with hq | ⟨hq, hig⟩
      · have hstep : commitBulkLoop addKey ig false (q :: (rest ++ p :: rpost)) none out =
            commitBulkLoop addKey ig false (rest ++ p :: rpost) none (out ++ [q]) := by
          simp [commitBulkLoop, hq]
        rw [hstep]
        exact ih p rpost (out ++ [q]) (fun q2 hq2 => hok q2 (List.mem_cons_of_mem _ hq2)) hdup
      · have hstep : commitBulkLoop addKey ig false (q :: (rest ++ p :: rpost)) none out =
            commitBulkLoop addKey ig false (rest ++ p :: rpost) none out := by
          simp [commitBulkLoop, hq, hig]
        rw [hstep]
        exact ih p rpost out (fun q2 hq2 => hok q2 (List.mem_cons_of_mem _ hq2)) hdup

/-- C8: bulk-build duplicate handling with duplicates disallowed. With a
caller-supplied duplicate sink, every record whose addKey fails with
DuplicateKey has its RecordId inserted into the sink exactly once (the sink
keeps set semantics: no RecordId twice) and the record is skipped — absent
from the builder's accepted output — while the build continues to a
successful finish; with no sink, the first DuplicateKey aborts the whole
build and that failure is returned to the caller. -/

theorem commitBulk_duplicate_handling (addKey : Key → Nat → Status)
    (isPrimary failFlag bulkMultikey : Bool) (s : MState) :
    (∀ (records : List (Key × Nat)) (s0 : List Nat), s0.Nodup →
      (∀ p ∈ records, addKey p.1 p.2 = Status.ok ∨
         (addKey p.1 p.2 = Status.err ErrorCode.KeyTooLong ∧
           ignoreKeyTooLong isPrimary failFlag = true) ∨
         addKey p.1 p.2 = Status.err ErrorCode.DuplicateKey) →
      (commitBulk addKey isPrimary failFlag false bulkMultikey records
          (some s0) s).status = Status.ok ∧
      ∃ s2, (commitBulk addKey isPrimary failFlag false bulkMultikey records
          (some s0) s).dupsToDrop = some s2 ∧
        s2.Nodup ∧
        (∀ r, r ∈ s2 ↔ r ∈ s0 ∨
           ∃ k, (k, r) ∈ records ∧ addKey k r = Status.err ErrorCode.DuplicateKey) ∧
        (∀ p ∈ records, addKey p.1 p.2 = Status.err ErrorCode.DuplicateKey →
           p ∉ (commitBulk addKey isPrimary failFlag false bulkMultikey records
             (some s0) s).builderOut)) ∧
    (∀ (rpre : List (Key × Nat)) (p : Key × Nat) (rpost : List (Key × Nat)),
      (∀ q ∈ rpre, addKey q.1 q.2 = Status.ok ∨
         (addKey q.1 q.2 = Status.err ErrorCode.KeyTooLong ∧
           ignoreKeyTooLong isPrimary failFlag = true)) →
      addKey p.1 p.2 = Status.err ErrorCode.DuplicateKey →
      (commitBulk addKey isPrimary failFlag false bulkMultikey (rpre ++ p :: rpost)
          none s).status = Status.err ErrorCode.DuplicateKey) := by
  constructor
  · intro records s0 hnd htol
    have hloop := commitBulkLoop_tolerated addKey (ignoreKeyTooLong isPrimary failFlag)
        records s0 [] htol
    have hcb : commitBulk addKey isPrimary failFlag false bulkMultikey records (some s0) s =
        ⟨Status.ok, { s with multikey := s.multikey || bulkMultikey },
         some (records.foldl (fun acc p =>
            if addKey p.1 p.2 = Status.err ErrorCode.DuplicateKey then setInsert acc p.2
            else acc) s0),
         records.filter (fun p => addKey p.1 p.2 == Status.ok)⟩ := by
      rw [commitBulk, hloop]
      simp
    rw [hcb]
    refine ⟨rfl, _, rfl, foldlDup_nodup addKey records s0 hnd,
      fun r => foldlDup_mem addKey records s0 r, ?_⟩
    intro p hp hdup hmem
    rw [List.mem_filter, hdup] at hmem
    exact absurd hmem.2 (by decide)
  · intro rpre p rpost hok hdup
    have hloop := commitBulkLoop_none_abort addKey (ignoreKeyTooLong isPrimary failFlag)
        rpre p rpost [] hok hdup
    rcases hcl : commitBulkLoop addKey (ignoreKeyTooLong isPrimary failFlag) false
        (rpre ++ p :: rpost) none [] with ⟨st, dt2, out⟩
    have hcb : (commitBulk addKey isPrimary failFlag false bulkMultikey (rpre ++ p :: rpost)
        none s).status = st := by
      rw [commitBulk, hcl]
    rw [hcl] at hloop
    rw [hcb]
    exact hloop

/-- Witness for C8: the stream holds one key for records 1 and 2 and the
builder rejects record 2 as a duplicate; with a sink the build succeeds and
the sink ends as exactly the set containing 2; with no sink the build aborts
with DuplicateKey. -/

theorem commitBulk_duplicate_handling_witness :
    (([] : List Nat).Nodup ∧
     (∀ p ∈ exRecords, exAddKey p.1 p.2 = Status.ok ∨
        (exAddKey p.1 p.2 = Status.err ErrorCode.KeyTooLong ∧
          ignoreKeyTooLong true true = true) ∨
        exAddKey p.1 p.2 = Status.err ErrorCode.DuplicateKey) ∧
     (∀ q ∈ [((Key.mk 0 1 : Key), (1 : Nat))], exAddKey q.1 q.2 = Status.ok ∨
        (exAddKey q.1 q.2 = Status.err ErrorCode.KeyTooLong ∧
          ignoreKeyTooLong true true = true)) ∧
     exAddKey (Key.mk 0 1, (2 : Nat)).1 (Key.mk 0 1, (2 : Nat)).2 =
       Status.err ErrorCode.DuplicateKey) ∧
    ((commitBulk exAddKey true true false false exRecords (some []) ⟨[], false⟩).status =
        Status.ok ∧
     ∃ s2, (commitBulk exAddKey true true false false exRecords
         (some []) ⟨[], false⟩).dupsToDrop = some s2 ∧
       s2.Nodup ∧
       (∀ r, r ∈ s2 ↔ r ∈ ([] : List Nat) ∨
          ∃ k, (k, r) ∈ exRecords ∧ exAddKey k r = Status.err ErrorCode.DuplicateKey) ∧
       (∀ p ∈ exRecords, exAddKey p.1 p.2 = Status.err ErrorCode.DuplicateKey →
          p ∉ (commitBulk exAddKey true true false false exRecords
            (some []) ⟨[], false⟩).builderOut)) ∧
    (commitBulk exAddKey true true false false
        ([((Key.mk 0 1 : Key), (1 : Nat))] ++ (Key.mk 0 1, (2 : Nat)) :: [])
        none ⟨[], false⟩).status = Status.err ErrorCode.DuplicateKey :=
  ⟨⟨by decide, by decide, by decide, by decide⟩,
   (commitBulk_duplicate_handling exAddKey true true false ⟨[], false⟩).1
     exRecords [] (by decide) (by decide),
   (commitBulk_duplicate_handling exAddKey true true false ⟨[], false⟩).2
     [((Key.mk 0 1 : Key), (1 : Nat))] (Key.mk 0 1, (2 : Nat)) [] (by decide) (by decide)⟩

theorem insert_multikey_mono (storeIns : Key → Status) (p f r d : Bool) (keys : List Key)
    (loc : Nat) (s : MState) (h : s.multikey = true) :
    (insert storeIns p f r d keys loc s).state.multikey = true := by
  rcases hik : insertKeys storeIns (ignoreKeyTooLong p f) r d loc keys [] 0 s.store
    with ⟨st, n, store2⟩
  cases st with
  | ok => simp [insert, hik, h]
  | err c => simp [insert, hik, h]

theorem update_multikey_mono (storeIns : Key → Status) (t : UpdateTicket) (s : MState)
    (h : s.multikey = true) : (update storeIns t s).state.multikey = true := by
  cases hv : t._isValid with
  | false => simp [update, hv, h]
  | true =>
      obtain ⟨hstate, _, _, _⟩ := update_valid_components storeIns t s hv
      obtain ⟨ha1, _⟩ := addLoop_multikey storeIns t.loc t.added
          (removeLoop t.loc t.dupsAllowed t.removed (updateS0 t s)).1
      obtain ⟨_, hr2, _⟩ := removeLoop_spec t.loc t.dupsAllowed t.removed (updateS0 t s)
      rw [hstate, ha1, hr2]
      unfold updateS0
      split
      · rfl
      · exact h

theorem commitBulk_state_multikey (addKey : Key → Nat → Status)
    (p f d m : Bool) (records : List (Key × Nat)) (dt : Option (List Nat)) (s : MState) :
    (commitBulk addKey p f d m records dt s).state.multikey = (s.multikey || m) := by
  rcases hcl : commitBulkLoop addKey (ignoreKeyTooLong p f) d records dt []
    with ⟨st, dt2, out⟩
  simp [commitBulk, hcl]

theorem applyOp_multikey_mono (op : IndexOp) (s : MState) (h : s.multikey = true) :
    (applyOp op s).multikey = true := by
  cases op with
  | ins storeIns p f r d keys loc => exact insert_multikey_mono storeIns p f r d keys loc s h
  | rem keys loc d => exact h
  | upd storeIns t => exact update_multikey_mono storeIns t s h
  | bulk addKey p f d m records dt => rw [applyOp, commitBulk_state_multikey, h]; rfl

/-- C9: multikey monotonicity. For every sequence of insert, remove, update
and bulk-build calls, once the multikey flag is set it is never cleared —
every operation of this core leaves the flag unchanged or sets it to true. -/

theorem multikey_monotone (ops : List IndexOp) (s : MState) (h : s.multikey = true) :
    (applyOps ops s).multikey = true := by
  induction ops generalizing s with
  | nil => exact h
  | cons op rest ih =>
      rw [applyOps, List.foldl_cons]
      exact ih (applyOp op s) (applyOp_multikey_mono op s h)

/-- Witness for C9 on a concrete two-call sequence (a remove then an insert)
starting from a set flag. -/

theorem multikey_monotone_witness :
    (⟨[], true⟩ : MState).multikey = true ∧
    (applyOps
       [IndexOp.rem [Key.mk 0 0] 3 true,
        IndexOp.ins (fun _ => Status.ok) true true true true [Key.mk 0 0] 3]
       ⟨[], true⟩).multikey = true :=
  ⟨rfl, multikey_monotone _ ⟨[], true⟩ rfl⟩

end BtreeAccess
